import Mathlib

/-!
Verification development for the cohort-derivation and structural-metrics
pipeline of the Hybrid-Clinical-Notes-Extraction-Pipeline repository.

The embedding covers:
* `src/data_processing/quant_profiling.py` — the six deterministic metric
  functions (regular-expression pattern counters and basic size metrics);
* `src/data_processing/build_corpus.py` — the module-level cohort filter,
  note filter, inner joins, temporal-window restriction and corpus
  projection.

Regular-expression counters are embedded as deterministic left-to-right
scanners over the character list.  Each scanner tries a match at every
position, in order; on success it adds one and resumes immediately after
the matched span (the `skip` counter consumes the remainder of the span,
one character per step); on failure it advances one position.  This is
exactly the semantics of `len(re.findall(pattern, text, flags))` for the
concrete patterns in the source, whose backtracking behaviour collapses to
the maximal-run analysis encoded below (each character class used before a
mandatory literal excludes that literal, so a greedy run can only stop at
the maximal-run boundary; comments at each definition give the argument).

The embedding restricts the character classes `\s`, `\w`, `[A-Z]`,
`[a-z]`, `\d` and `str.strip` / `str.lower` to their ASCII meaning; every
theorem and counterexample below instantiates texts inside ASCII.
-/

/-- ASCII whitespace, the subset of Python `\s` and `str.strip` relevant
here: space, tab, newline, carriage return, vertical tab, form feed. -/
def isPySpace (c : Char) : Bool :=
  c == ' ' || c == '\t' || c == '\n' || c == '\r' || c == '\x0b' || c == '\x0c'

/-- Uppercase ASCII letter, the class `[A-Z]`. -/
def isUpperAZ (c : Char) : Bool :=
  65 ≤ c.toNat && c.toNat ≤ 90

/-- Lowercase ASCII letter, the class `[a-z]`. -/
def isLowerAZ (c : Char) : Bool :=
  97 ≤ c.toNat && c.toNat ≤ 122

/-- ASCII digit, the class `\d`. -/
def isDigitC (c : Char) : Bool :=
  48 ≤ c.toNat && c.toNat ≤ 57

/-- Word character, the class `\w` used by the `\b` anchors:
letters, digits, underscore. -/
def wordChar (c : Char) : Bool :=
  isUpperAZ c || isLowerAZ c || isDigitC c || c == '_'

/-- The class `[A-Za-z\s]` of `count_colon_headers`. -/
def colonClass (c : Char) : Bool :=
  isUpperAZ c || isLowerAZ c || isPySpace c

/-- The class `[A-Z\s]` of `count_uppercase_blocks`. -/
def upperClass (c : Char) : Bool :=
  isUpperAZ c || isPySpace c

/-- The zero-width `\b` test at the boundary before the remaining
characters: succeeds at end of text or when the next character is not a
word character (the previous character of every use below is a digit). -/
def boundaryOK : List Char → Bool
  | [] => true
  | c :: _ => !wordChar c

/-- Scanner for `count_colon_headers`: pattern `^[A-Z][A-Za-z\s]+:` with
`re.MULTILINE`.  `ls` records whether the current position is a line start
(position 0 or just after a newline); `skip` consumes the remainder of a
span already matched.  At a line start with an uppercase head, the greedy
run `[A-Za-z\s]+` can only end at the first character outside the class
(a `:` is outside the class, so backtracking can never stop the run
earlier), hence the attempt succeeds exactly when that first outside
character is `:` and the run is nonempty. -/
def countCH : List Char → Bool → Nat → Nat
  | [], _, _ => 0
  | c :: cs, _, skip+1 => countCH cs (c == '\n') skip
  | c :: cs, ls, 0 =>
    if ls && isUpperAZ c then
      match cs.dropWhile colonClass with
      | d :: _ =>
        if d == ':' && 1 ≤ (cs.takeWhile colonClass).length then
          1 + countCH cs (c == '\n') ((cs.takeWhile colonClass).length + 1)
        else countCH cs (c == '\n') 0
      | [] => countCH cs (c == '\n') 0
    else countCH cs (c == '\n') 0

/-- Scanner for `count_uppercase_blocks`: pattern `^[A-Z\s]{3,}:` with
`re.MULTILINE`.  The greedy run `[A-Z\s]{3,}` can only end at the first
character outside the class (`:` is outside the class), so the attempt at
a line start succeeds exactly when the maximal run has length at least 3
and is followed by `:`. -/
def countUB : List Char → Bool → Nat → Nat
  | [], _, _ => 0
  | c :: cs, _, skip+1 => countUB cs (c == '\n') skip
  | c :: cs, ls, 0 =>
    if ls then
      match (c :: cs).dropWhile upperClass with
      | d :: _ =>
        if d == ':' && 3 ≤ ((c :: cs).takeWhile upperClass).length then
          1 + countUB cs (c == '\n') ((c :: cs).takeWhile upperClass).length
        else countUB cs (c == '\n') 0
      | [] => countUB cs (c == '\n') 0
    else countUB cs (c == '\n') 0

/-- Scanner for `count_numeric_tokens`: pattern `\b\d+(\.\d+)?\b`.
`pw` records whether the previous character is a word character (the `\b`
before the first digit).  After the maximal digit run `d1`:
if the next character is `.` followed by a digit, the greedy optional
group consumes `.` and the maximal digit run `d2`; the final `\b` then
either succeeds after `d2`, or the group backtracks to "not taken" and
the final `\b` succeeds against the `.` (not a word character) — so the
attempt always succeeds in this case, matching through `d2` or only `d1`.
Without a fractional part the attempt succeeds exactly when the character
after `d1` is absent or not a word character. -/
def countNum : List Char → Bool → Nat → Nat
  | [], _, _ => 0
  | c :: cs, _, skip+1 => countNum cs (wordChar c) skip
  | c :: cs, pw, 0 =>
    if !pw && isDigitC c then
      match (c :: cs).dropWhile isDigitC with
      | [] => 1 + countNum cs (wordChar c) (((c :: cs).takeWhile isDigitC).length - 1)
      | r0 :: rr =>
        if r0 == '.' then
          match rr with
          | e :: r2 =>
            if isDigitC e then
              if boundaryOK ((e :: r2).dropWhile isDigitC) then
                1 + countNum cs (wordChar c)
                  (((c :: cs).takeWhile isDigitC).length + ((e :: r2).takeWhile isDigitC).length)
              else 1 + countNum cs (wordChar c) (((c :: cs).takeWhile isDigitC).length - 1)
            else 1 + countNum cs (wordChar c) (((c :: cs).takeWhile isDigitC).length - 1)
          | [] => 1 + countNum cs (wordChar c) (((c :: cs).takeWhile isDigitC).length - 1)
        else if wordChar r0 then countNum cs (wordChar c) 0
        else 1 + countNum cs (wordChar c) (((c :: cs).takeWhile isDigitC).length - 1)
    else countNum cs (wordChar c) 0

/-- Scanner for `count_bp_patterns`: pattern `\b\d{2,3}/\d{2,3}\b`.
`{2,3}` is greedy; since the maximal digit run is computed first, the
attempt succeeds exactly when the maximal run before `/` has length 2 or
3 (a longer run cannot backtrack onto a digit), the character after it is
`/`, the maximal run after `/` has length 2 or 3, and the final `\b`
holds. -/
def countBP : List Char → Bool → Nat → Nat
  | [], _, _ => 0
  | c :: cs, _, skip+1 => countBP cs (wordChar c) skip
  | c :: cs, pw, 0 =>
    if !pw && isDigitC c then
      match (c :: cs).dropWhile isDigitC with
      | r0 :: rr =>
        if r0 == '/' &&
            (((c :: cs).takeWhile isDigitC).length == 2 ||
             ((c :: cs).takeWhile isDigitC).length == 3) then
          if ((rr.takeWhile isDigitC).length == 2 || (rr.takeWhile isDigitC).length == 3) &&
              boundaryOK (rr.dropWhile isDigitC) then
            1 + countBP cs (wordChar c)
              (((c :: cs).takeWhile isDigitC).length + (rr.takeWhile isDigitC).length)
          else countBP cs (wordChar c) 0
        else countBP cs (wordChar c) 0
      | [] => countBP cs (wordChar c) 0
    else countBP cs (wordChar c) 0

/-- Scan for the non-greedy tail `.*?\*\*\]` of the de-identification
pattern: starting right after an opening `[**`, return the number of
characters consumed up to and including the first `**]`, failing on a
newline (`.` does not match a newline; `re.DOTALL` is not set) or at end
of text. -/
def findCloseLen : List Char → Option Nat
  | a :: b :: c :: rest =>
    if a == '*' && b == '*' && c == ']' then some 3
    else if a == '\n' then none
    else (findCloseLen (b :: c :: rest)).map (· + 1)
  | _ => none

/-- Occurrence test for the closing delimiter `**]` anywhere in the
text, used to reason about failed close scans. -/
def hasClose : List Char → Bool
  | [] => false
  | a :: rest => (a == '*' && rest.take 2 == ['*', ']']) || hasClose rest

/-- Scanner for `count_deid_tokens`: pattern `\[\*\*.*?\*\*\]`.
At each position, an attempt succeeds when the text starts with `[**`
and a closing `**]` is reachable without crossing a newline; the
non-greedy `.*?` stops at the first such closing. -/
def countDeid : List Char → Nat → Nat
  | [], _ => 0
  | _ :: cs, skip+1 => countDeid cs skip
  | a :: cs, 0 =>
    if a == '[' && cs.take 2 == ['*', '*'] then
      match findCloseLen (cs.drop 2) with
      | some n => 1 + countDeid cs (2 + n)
      | none => countDeid cs 0
    else countDeid cs 0

/-- Tokens of `str.split()` with no arguments: maximal runs of
non-whitespace characters; `inTok` records whether the previous character
belongs to a token. -/
def tokenCountAux : List Char → Bool → Nat
  | [], _ => 0
  | c :: cs, inTok =>
    if isPySpace c then tokenCountAux cs false
    else if inTok then tokenCountAux cs true
    else 1 + tokenCountAux cs true

/-- `count_colon_headers(text)` from quant_profiling.py. -/
def count_colon_headers (s : String) : Nat := countCH s.data true 0

/-- `count_uppercase_blocks(text)` from quant_profiling.py. -/
def count_uppercase_blocks (s : String) : Nat := countUB s.data true 0

/-- `count_numeric_tokens(text)` from quant_profiling.py. -/
def count_numeric_tokens (s : String) : Nat := countNum s.data false 0

/-- `count_bp_patterns(text)` from quant_profiling.py. -/
def count_bp_patterns (s : String) : Nat := countBP s.data false 0

/-- `count_deid_tokens(text)` from quant_profiling.py. -/
def count_deid_tokens (s : String) : Nat := countDeid s.data 0

/-- `len(text)` — the `char_length` metric. -/
def char_length (s : String) : Nat := s.data.length

/-- `len(text.split())` — the `token_count` metric. -/
def token_count (s : String) : Nat := tokenCountAux s.data false

/-- `text.count("\n") + 1` — the `line_count` metric. -/
def line_count (s : String) : Nat := s.data.count '\n' + 1

/-- The first character, if any, is not whitespace. -/
def headNoWS : List Char → Bool
  | [] => true
  | c :: _ => !isPySpace c

/-- Every character that follows a newline is not whitespace. -/
def noIndentAux : List Char → Bool
  | [] => true
  | c :: cs => (!(c == '\n') || headNoWS cs) && noIndentAux cs

/-- No line of the text begins with a whitespace character. -/
def noIndentedLine (s : String) : Bool :=
  headNoWS s.data && noIndentAux s.data

/-!
Embedding of `src/data_processing/build_corpus.py`.

A timestamp value as produced by `pd.to_datetime` is modelled as an
instant (`sec`, seconds on an absolute scale — all comparisons, the
subtraction producing `LOS_HOURS`, and `pd.Timedelta(hours=·)` addition
act on it) together with its calendar-year attribute `year` (read only by
`.dt.year` in the age computation).

A raw timestamp cell of a loaded CSV column is either missing (pandas
`NaN`, which `pd.to_datetime` converts to `NaT`), a parseable value, or a
malformed non-missing string, on which `pd.to_datetime` (default
`errors="raise"`) raises and aborts the run.  The pipeline is therefore
embedded in `Except`: a malformed cell reached by a parse step yields
`Except.error`, and stages after a successful parse carry
`Option Timestamp` (with `none` for `NaT`).  Pandas comparisons against
`NaT`/`NaN` are false, which the `Option` matches below reproduce.
-/

/-- An instant with its calendar-year attribute. -/
structure Timestamp where
  year : Int
  sec : Int
  deriving Repr, DecidableEq

/-- A raw timestamp cell of a loaded column. -/
inductive TSCell where
  | missing
  | valid (t : Timestamp)
  | malformed
  deriving Repr, DecidableEq

/-- `pd.to_datetime` on one cell: missing becomes `NaT`, a malformed
non-missing value raises. -/
def parseTS : TSCell → Except String (Option Timestamp)
  | .missing => .ok none
  | .valid t => .ok (some t)
  | .malformed => .error "TimestampParseError"

/-- Element-wise effectful map, the column form of `pd.to_datetime`:
the first failing cell aborts. -/
def mapE (f : α → Except String β) : List α → Except String (List β)
  | [] => .ok []
  | x :: xs =>
    match f x with
    | .error e => .error e
    | .ok y =>
      match mapE f xs with
      | .error e => .error e
      | .ok ys => .ok (y :: ys)

/-- A row of NOTEEVENTS.csv restricted to the loaded columns. -/
structure NoteRow where
  subject_id : Int
  hadm_id : Int
  charttime : TSCell
  category : String
  iserror : Option Int
  text : String
  deriving Repr, DecidableEq

/-- A row of ICUSTAYS.csv restricted to the loaded columns. -/
structure StayRow where
  subject_id : Int
  hadm_id : Int
  icustay_id : Int
  first_careunit : String
  intime : TSCell
  outtime : TSCell
  deriving Repr, DecidableEq

/-- A row of PATIENTS.csv restricted to the loaded columns. -/
structure PatientRow where
  subject_id : Int
  dob : TSCell
  gender : String
  deriving Repr, DecidableEq

/-- An ICU-stay row after the INTIME/OUTTIME conversion of lines
131-132. -/
structure StayP where
  subject_id : Int
  hadm_id : Int
  icustay_id : Int
  first_careunit : String
  intime : Option Timestamp
  outtime : Option Timestamp
  deriving Repr, DecidableEq

/-- An ICU-stay row after the LOS_HOURS assignment of lines 140-143. -/
structure StayL where
  subject_id : Int
  hadm_id : Int
  icustay_id : Int
  first_careunit : String
  intime : Option Timestamp
  outtime : Option Timestamp
  los_hours : Option ℚ
  deriving Repr, DecidableEq

/-- An ICU-stay row after the patient merge of lines 156-160. -/
structure StayD where
  subject_id : Int
  hadm_id : Int
  icustay_id : Int
  first_careunit : String
  intime : Option Timestamp
  outtime : Option Timestamp
  los_hours : Option ℚ
  dob : Option Timestamp
  gender : String
  deriving Repr, DecidableEq

/-- A qualified-stay row, after the AGE assignment of lines 166-168. -/
structure QStay where
  subject_id : Int
  hadm_id : Int
  icustay_id : Int
  first_careunit : String
  intime : Option Timestamp
  outtime : Option Timestamp
  los_hours : Option ℚ
  dob : Option Timestamp
  gender : String
  age : Option Int
  deriving Repr, DecidableEq

/-- A note-stay row after the inner merge of lines 201-205;
CHARTTIME is still the raw loaded cell at this point. -/
structure Merged where
  subject_id : Int
  hadm_id : Int
  charttime : TSCell
  category : String
  iserror : Option Int
  text : String
  icustay_id : Int
  first_careunit : String
  intime : Option Timestamp
  outtime : Option Timestamp
  los_hours : Option ℚ
  dob : Option Timestamp
  gender : String
  age : Option Int
  deriving Repr, DecidableEq

/-- A note-stay row after the CHARTTIME conversion of line 214. -/
structure MergedP where
  subject_id : Int
  hadm_id : Int
  charttime : Option Timestamp
  category : String
  iserror : Option Int
  text : String
  icustay_id : Int
  first_careunit : String
  intime : Option Timestamp
  outtime : Option Timestamp
  los_hours : Option ℚ
  dob : Option Timestamp
  gender : String
  age : Option Int
  deriving Repr, DecidableEq

/-- A row of the final corpus (lines 234-247). -/
structure CorpusRow where
  subject_id : Int
  hadm_id : Int
  icustay_id : Int
  age : Option Int
  gender : String
  first_careunit : String
  los_hours : Option ℚ
  category : String
  charttime : Option Timestamp
  text : String
  deriving Repr, DecidableEq

/-- ALLOWED_CATEGORIES (lines 109-113). -/
def ALLOWED_CATEGORIES : List String := ["physician", "nursing", "nursing/other"]

/-- ALLOWED_UNITS (lines 115-121). -/
def ALLOWED_UNITS : List String := ["MICU", "CCU", "SICU", "TSICU", "CSRU"]

/-- MIN_LOS_HOURS (line 123). -/
def MIN_LOS_HOURS : ℚ := 24

/-- TIME_WINDOW_HOURS (line 124). -/
def TIME_WINDOW_HOURS : Int := 24

/-- Lines 131-132: `pd.to_datetime` on INTIME and OUTTIME of one stay
row. -/
def parseStayRow (s : StayRow) : Except String StayP :=
  match parseTS s.intime with
  | .error e => .error e
  | .ok ti =>
    match parseTS s.outtime with
    | .error e => .error e
    | .ok tou =>
      .ok ⟨s.subject_id, s.hadm_id, s.icustay_id, s.first_careunit, ti, tou⟩

/-- Line 153: `pd.to_datetime` on DOB of one patient row. -/
def parsePatientRow (p : PatientRow) : Except String (Option Timestamp × Int × String) :=
  match parseTS p.dob with
  | .error e => .error e
  | .ok d => .ok (d, p.subject_id, p.gender)

/-- Lines 140-143: `LOS_HOURS = (OUTTIME - INTIME).dt.total_seconds() /
3600`, as the exact rational `(o.sec - i.sec) / 3600` (written with the
kernel-evaluable `Rat.divInt`); a `NaT` operand gives `NaN`, modelled as
`none`. -/
def addLos (s : StayP) : StayL :=
  { subject_id := s.subject_id, hadm_id := s.hadm_id, icustay_id := s.icustay_id
    first_careunit := s.first_careunit, intime := s.intime, outtime := s.outtime
    los_hours :=
      match s.outtime, s.intime with
      | some o, some i => some (Rat.divInt (o.sec - i.sec) 3600)
      | _, _ => none }

/-- The comparison `LOS_HOURS >= MIN_LOS_HOURS` of line 146; false on
`NaN`. -/
def losGE (q : Option ℚ) (m : ℚ) : Bool :=
  match q with
  | some q => decide (m ≤ q)
  | none => false

/-- Lines 156-160: inner merge of the stay table with
`patients[["SUBJECT_ID", "DOB", "GENDER"]]` on SUBJECT_ID. -/
def mergePatients (stays : List StayL) (pats : List (Option Timestamp × Int × String)) :
    List StayD :=
  stays.flatMap fun s =>
    (pats.filter fun p => p.2.1 == s.subject_id).map fun p =>
      { subject_id := s.subject_id, hadm_id := s.hadm_id, icustay_id := s.icustay_id
        first_careunit := s.first_careunit, intime := s.intime, outtime := s.outtime
        los_hours := s.los_hours, dob := p.1, gender := p.2.2 }

/-- Lines 166-168: `AGE = INTIME.dt.year - DOB.dt.year`; `NaT` on either
side gives `NaN`. -/
def addAge (s : StayD) : QStay :=
  { subject_id := s.subject_id, hadm_id := s.hadm_id, icustay_id := s.icustay_id
    first_careunit := s.first_careunit, intime := s.intime, outtime := s.outtime
    los_hours := s.los_hours, dob := s.dob, gender := s.gender
    age :=
      match s.intime, s.dob with
      | some i, some d => some (i.year - d.year)
      | _, _ => none }

/-- The de-identification age correction of line 172 on one age value:
an age strictly above 120 is reset to 90. -/
def correctAge (a : Int) : Int :=
  if 120 < a then 90 else a

/-- Line 172: `icustays.loc[icustays["AGE"] > 120, "AGE"] = 90` on one
row; a `NaN` age fails the `> 120` test and is untouched. -/
def capAgeRow (s : QStay) : QStay :=
  { s with age := s.age.map correctAge }

/-- The comparison `AGE >= 18` of line 175; false on `NaN`. -/
def ageGE (a : Option Int) (m : Int) : Bool :=
  match a with
  | some a => decide (m ≤ a)
  | none => false

/-- Lines 130-177: the cohort-defining stage, from the raw ICU-stay and
patient tables to the qualified-stay table. -/
def cohortFilter (icustays : List StayRow) (patients : List PatientRow) :
    Except String (List QStay) :=
  match mapE parseStayRow icustays with
  | .error e => .error e
  | .ok stays0 =>
    let s1 := stays0.filter fun s => ALLOWED_UNITS.contains s.first_careunit
    let s2 := s1.map addLos
    let s3 := s2.filter fun s => losGE s.los_hours MIN_LOS_HOURS
    match mapE parsePatientRow patients with
    | .error e => .error e
    | .ok pats =>
      let s4 := mergePatients s3 pats
      let s5 := s4.filter fun s => s.dob.isSome
      let s6 := s5.map addAge
      let s7 := s6.map capAgeRow
      .ok (s7.filter fun s => ageGE s.age 18)

/-- Python `str.strip()` on the character list (ASCII whitespace). -/
def stripChars (l : List Char) : List Char :=
  ((l.dropWhile isPySpace).reverse.dropWhile isPySpace).reverse

/-- Python `str.lower()` restricted to ASCII. -/
def toLowerPy (c : Char) : Char :=
  if isUpperAZ c then Char.ofNat (c.toNat + 32) else c

/-- Line 184: `.str.strip().str.lower()` on one category value. -/
def normCat (s : String) : String :=
  String.mk ((stripChars s.data).map toLowerPy)

/-- Line 184 on one note row: the CATEGORY column is overwritten with its
normalized value. -/
def normRow (n : NoteRow) : NoteRow :=
  { n with category := normCat n.category }

/-- Lines 183-194: category normalization, category filter, and
ISERROR filter (`ISERROR != 1`, true on a missing flag). -/
def noteFilter (notes : List NoteRow) : List NoteRow :=
  let notes := notes.map normRow
  let notes := notes.filter fun n => ALLOWED_CATEGORIES.contains n.category
  notes.filter fun n => !(n.iserror == some 1)

/-- Lines 201-205: inner merge of the filtered notes with the
qualified-stay table on (SUBJECT_ID, HADM_ID). -/
def mergeNotesStays (ns : List NoteRow) (qs : List QStay) : List Merged :=
  ns.flatMap fun n =>
    (qs.filter fun s => s.subject_id == n.subject_id && s.hadm_id == n.hadm_id).map fun s =>
      { subject_id := n.subject_id, hadm_id := n.hadm_id, charttime := n.charttime
        category := n.category, iserror := n.iserror, text := n.text
        icustay_id := s.icustay_id, first_careunit := s.first_careunit
        intime := s.intime, outtime := s.outtime, los_hours := s.los_hours
        dob := s.dob, gender := s.gender, age := s.age }

/-- Line 214: `pd.to_datetime` on CHARTTIME of one merged row. -/
def parseChart (m : Merged) : Except String MergedP :=
  match parseTS m.charttime with
  | .error e => .error e
  | .ok ct =>
    .ok { subject_id := m.subject_id, hadm_id := m.hadm_id, charttime := ct
          category := m.category, iserror := m.iserror, text := m.text
          icustay_id := m.icustay_id, first_careunit := m.first_careunit
          intime := m.intime, outtime := m.outtime, los_hours := m.los_hours
          dob := m.dob, gender := m.gender, age := m.age }

/-- Line 217: `dropna(subset=["CHARTTIME", "INTIME"])` keeps exactly the
rows with both timestamps present. -/
def dropnaStage (l : List MergedP) : List MergedP :=
  l.filter fun r => r.charttime.isSome && r.intime.isSome

/-- Lines 220-226: `CHARTTIME >= INTIME` and
`CHARTTIME <= INTIME + pd.Timedelta(hours=TIME_WINDOW_HOURS)`;
comparisons against `NaT` are false. -/
def inWindow (r : MergedP) : Bool :=
  match r.charttime, r.intime with
  | some c, some i =>
    decide (i.sec ≤ c.sec) && decide (c.sec ≤ i.sec + TIME_WINDOW_HOURS * 3600)
  | _, _ => false

/-- Lines 234-247: the final column projection. -/
def project (m : MergedP) : CorpusRow :=
  { subject_id := m.subject_id, hadm_id := m.hadm_id, icustay_id := m.icustay_id
    age := m.age, gender := m.gender, first_careunit := m.first_careunit
    los_hours := m.los_hours, category := m.category, charttime := m.charttime
    text := m.text }

/-- The whole module-level pipeline of build_corpus.py, from the three
loaded tables to the final corpus. -/
def buildCorpus (notes : List NoteRow) (icustays : List StayRow) (patients : List PatientRow) :
    Except String (List CorpusRow) :=
  match cohortFilter icustays patients with
  | .error e => .error e
  | .ok qs =>
    let nf := noteFilter notes
    let merged := mergeNotesStays nf qs
    match mapE parseChart merged with
    | .error e => .error e
    | .ok mergedP =>
      let kept := dropnaStage mergedP
      let kept := kept.filter inWindow
      .ok (kept.map project)

/-!
Concrete rows used by the closed boundary examples, counterexamples and
witnesses below.
-/

/-- A qualifying MICU stay: in-time at second 0 of year 2100, out-time 25
hours later. -/
def exStay : StayRow :=
  { subject_id := 1, hadm_id := 10, icustay_id := 100, first_careunit := "MICU"
    intime := .valid ⟨2100, 0⟩, outtime := .valid ⟨2100, 90000⟩ }

/-- A patient born in 2050, giving admission age 50. -/
def exPatient : PatientRow :=
  { subject_id := 1, dob := .valid ⟨2050, -1577836800⟩, gender := "F" }

/-- A patient with an obscured date of birth giving computed admission
age 155. -/
def exPatientOld : PatientRow :=
  { subject_id := 1, dob := .valid ⟨1945, -4891363200⟩, gender := "M" }

/-- A physician note charted exactly at in-time plus the 24-hour window
boundary. -/
def exNoteBoundary : NoteRow :=
  { subject_id := 1, hadm_id := 10, charttime := .valid ⟨2100, 86400⟩
    category := " Physician ", iserror := some 0, text := "at the boundary" }

/-- A physician note charted one second after the window boundary. -/
def exNoteLate : NoteRow :=
  { subject_id := 1, hadm_id := 10, charttime := .valid ⟨2100, 86401⟩
    category := "Physician", iserror := some 0, text := "one second late" }

/-- A nursing note with a missing (NaN) error flag. -/
def exNoteNoFlag : NoteRow :=
  { subject_id := 1, hadm_id := 10, charttime := .valid ⟨2100, 3600⟩
    category := "Nursing", iserror := none, text := "missing flag" }

/-- A physician note explicitly marked as an error. -/
def exNoteError : NoteRow :=
  { subject_id := 1, hadm_id := 10, charttime := .valid ⟨2100, 3600⟩
    category := "physician", iserror := some 1, text := "marked error" }

/-- A radiology note, outside the allowed categories. -/
def exNoteRadiology : NoteRow :=
  { subject_id := 1, hadm_id := 10, charttime := .valid ⟨2100, 3600⟩
    category := "Radiology", iserror := some 0, text := "radiology" }

/-- A physician note whose CHARTTIME cell is malformed. -/
def exNoteMalformed : NoteRow :=
  { subject_id := 1, hadm_id := 10, charttime := .malformed
    category := "physician", iserror := some 0, text := "bad timestamp" }

/-- A physician note whose CHARTTIME cell is missing. -/
def exNoteMissing : NoteRow :=
  { subject_id := 1, hadm_id := 10, charttime := .missing
    category := "physician", iserror := some 0, text := "missing timestamp" }

/-- The qualified stay produced from `exStay` and `exPatient`. -/
def exQStay : QStay :=
  { subject_id := 1, hadm_id := 10, icustay_id := 100, first_careunit := "MICU"
    intime := some ⟨2100, 0⟩, outtime := some ⟨2100, 90000⟩, los_hours := some 25
    dob := some ⟨2050, -1577836800⟩, gender := "F", age := some 50 }

/-- The corpus row produced from `exNoteBoundary` joined with
`exQStay`. -/
def exCorpusBoundary : CorpusRow :=
  { subject_id := 1, hadm_id := 10, icustay_id := 100, age := some 50, gender := "F"
    first_careunit := "MICU", los_hours := some 25, category := "physician"
    charttime := some ⟨2100, 86400⟩, text := "at the boundary" }

/-- The qualified stay produced from `exStay` and `exPatientOld`: the
computed age 155 has been reset to 90 and the stay retained. -/
def exQStayOld : QStay :=
  { subject_id := 1, hadm_id := 10, icustay_id := 100, first_careunit := "MICU"
    intime := some ⟨2100, 0⟩, outtime := some ⟨2100, 90000⟩, los_hours := some 25
    dob := some ⟨1945, -4891363200⟩, gender := "M", age := some 90 }

/-- A qualified-stay row, as it stands just before the age cap of line
172, with computed age 155. -/
def exQStay155 : QStay :=
  { exQStayOld with age := some 155 }

/-- Every cell except a malformed one converts without raising. -/
def cellOK : TSCell → Bool
  | .malformed => false
  | _ => true

/-- No timestamp cell of the three loaded tables is malformed (missing
cells are allowed). -/
def noMalformedInputs (notes : List NoteRow) (icustays : List StayRow)
    (patients : List PatientRow) : Bool :=
  notes.all (fun n => cellOK n.charttime) &&
  icustays.all (fun s => cellOK s.intime && cellOK s.outtime) &&
  patients.all (fun p => cellOK p.dob)


/-!
Helper lemmas shared by the claim theorems.
-/

theorem mapE_mem {f : α → Except String β} {l : List α} {l2 : List β}
    (h : mapE f l = .ok l2) {y : β} (hy : y ∈ l2) : ∃ x ∈ l, f x = .ok y := by
  induction l generalizing l2 with
  | nil =>
    simp only [mapE] at h
    cases h
    simp at hy
  | cons x xs ih =>
    simp only [mapE] at h
    cases hfx : f x with
    | error e => rw [hfx] at h; cases h
    | ok z =>
      rw [hfx] at h
      cases hxs : mapE f xs with
      | error e => rw [hxs] at h; cases h
      | ok zs =>
        rw [hxs] at h
        cases h
        rcases List.mem_cons.mp hy with rfl | hy2
        · exact ⟨x, List.mem_cons_self .., hfx⟩
        · rcases ih hxs hy2 with ⟨a, ha, hfa⟩
          exact ⟨a, List.mem_cons_of_mem _ ha, hfa⟩

theorem mapE_ok_of_all {f : α → Except String β} {l : List α}
    (h : ∀ x ∈ l, ∃ y, f x = .ok y) : ∃ l2, mapE f l = .ok l2 := by
  induction l with
  | nil => exact ⟨[], rfl⟩
  | cons x xs ih =>
    rcases h x (List.mem_cons_self ..) with ⟨y, hy⟩
    rcases ih (fun a ha => h a (List.mem_cons_of_mem _ ha)) with ⟨l2, hl2⟩
    exact ⟨y :: l2, by simp only [mapE, hy, hl2]⟩

theorem mergePatients_mem {stays : List StayL} {pats : List (Option Timestamp × Int × String)}
    {d : StayD} (hd : d ∈ mergePatients stays pats) :
    ∃ s ∈ stays, d.first_careunit = s.first_careunit ∧ d.los_hours = s.los_hours ∧
      d.subject_id = s.subject_id ∧ d.hadm_id = s.hadm_id := by
  simp only [mergePatients, List.mem_flatMap, List.mem_map, List.mem_filter] at hd
  rcases hd with ⟨s, hs, p, _, rfl⟩
  exact ⟨s, hs, rfl, rfl, rfl, rfl⟩

theorem mergeNotesStays_mem {ns : List NoteRow} {qs : List QStay} {m : Merged}
    (hm : m ∈ mergeNotesStays ns qs) :
    ∃ n ∈ ns, ∃ s ∈ qs,
      s.subject_id = n.subject_id ∧ s.hadm_id = n.hadm_id ∧
      m.subject_id = n.subject_id ∧ m.hadm_id = n.hadm_id ∧
      m.charttime = n.charttime ∧ m.intime = s.intime := by
  simp only [mergeNotesStays, List.mem_flatMap, List.mem_map, List.mem_filter] at hm
  rcases hm with ⟨n, hn, s, ⟨hs, hkey⟩, rfl⟩
  rcases Bool.and_eq_true .. |>.mp hkey with ⟨h1, h2⟩
  exact ⟨n, hn, s, hs, by simpa using h1, by simpa using h2, rfl, rfl, rfl, rfl⟩

theorem noteFilter_mem {notes : List NoteRow} {n : NoteRow} (hn : n ∈ noteFilter notes) :
    ∃ n0 ∈ notes, n = normRow n0 := by
  simp only [noteFilter, List.mem_filter, List.mem_map] at hn
  rcases hn with ⟨⟨⟨n0, hn0, rfl⟩, _⟩, _⟩
  exact ⟨n0, hn0, rfl⟩

/-!
Claim theorems.
-/

/-- C6: the de-identification age correction (replace any age strictly
greater than 120 with 90) is idempotent; a computed admission age of 155
is corrected to 90, not dropped, and such a stay is then retained by the
adult filter, as the concrete cohort run shows. -/
theorem C6_age_correction_idempotent :
    (∀ a : Int, correctAge (correctAge a) = correctAge a) ∧
    correctAge 155 = 90 ∧ ageGE (some (correctAge 155)) 18 = true ∧
    cohortFilter [exStay] [exPatientOld] = .ok [exQStayOld] := by
  refine ⟨fun a => ?_, rfl, rfl, rfl⟩
  by_cases h : (120 : Int) < a <;> simp [correctAge, h]

/-- C10: the age-correction step (line 172) changes only the AGE field,
and only on rows whose AGE is strictly greater than 120 (setting it
to 90); every other field of every row, the AGE of rows with AGE at most
120 (or missing), and the number and order of rows are unchanged. -/
theorem C10_age_cap_frame :
    (∀ l : List QStay, (l.map capAgeRow).length = l.length) ∧
    (∀ (l : List QStay) (i : Nat) (r : QStay), l[i]? = some r →
      ∃ r2, (l.map capAgeRow)[i]? = some r2 ∧
        r2.subject_id = r.subject_id ∧ r2.hadm_id = r.hadm_id ∧
        r2.icustay_id = r.icustay_id ∧ r2.first_careunit = r.first_careunit ∧
        r2.intime = r.intime ∧ r2.outtime = r.outtime ∧
        r2.los_hours = r.los_hours ∧ r2.dob = r.dob ∧ r2.gender = r.gender ∧
        (∀ a, r.age = some a → 120 < a → r2.age = some 90) ∧
        (∀ a, r.age = some a → a ≤ 120 → r2.age = some a) ∧
        (r.age = none → r2.age = none)) := by
  refine ⟨fun l => List.length_map .., fun l i r hr => ?_⟩
  refine ⟨capAgeRow r, by simp [List.getElem?_map, hr], rfl, rfl, rfl, rfl, rfl, rfl,
    rfl, rfl, rfl, fun a ha hgt => ?_, fun a ha hle => ?_, fun ha => ?_⟩
  · simp [capAgeRow, ha, correctAge, hgt]
  · simp [capAgeRow, ha, correctAge, not_lt.mpr hle]
  · simp [capAgeRow, ha]

/-- C10 witness: the frame property applied to a concrete one-row table
whose age 155 exceeds the cap. -/
theorem C10_age_cap_frame_witness :
    ∃ r2, ([exQStay155].map capAgeRow)[0]? = some r2 ∧
      r2.subject_id = exQStay155.subject_id ∧ r2.hadm_id = exQStay155.hadm_id ∧
      r2.icustay_id = exQStay155.icustay_id ∧
      r2.first_careunit = exQStay155.first_careunit ∧
      r2.intime = exQStay155.intime ∧ r2.outtime = exQStay155.outtime ∧
      r2.los_hours = exQStay155.los_hours ∧ r2.dob = exQStay155.dob ∧
      r2.gender = exQStay155.gender ∧
      (∀ a, exQStay155.age = some a → 120 < a → r2.age = some 90) ∧
      (∀ a, exQStay155.age = some a → a ≤ 120 → r2.age = some a) ∧
      (exQStay155.age = none → r2.age = none) :=
  C10_age_cap_frame.2 [exQStay155] 0 exQStay155 rfl

/-- C9: on the text `"NEURO: alert\nBP 120/80\n[**Name**]"` the metric
functions return colon-header count 1, blood-pressure-pattern count 1,
de-identification token count 1, standalone numeric-token count 2, and
line count 3; a text with zero newlines has line count 1. -/
theorem C9_example_text_metrics :
    count_colon_headers "NEURO: alert\nBP 120/80\n[**Name**]" = 1 ∧
    count_bp_patterns "NEURO: alert\nBP 120/80\n[**Name**]" = 1 ∧
    count_deid_tokens "NEURO: alert\nBP 120/80\n[**Name**]" = 1 ∧
    count_numeric_tokens "NEURO: alert\nBP 120/80\n[**Name**]" = 2 ∧
    line_count "NEURO: alert\nBP 120/80\n[**Name**]" = 3 ∧
    (∀ t : String, t.data.count '\n' = 0 → line_count t = 1) := by
  refine ⟨by decide, by decide, by decide, by decide, by decide, fun t ht => ?_⟩
  simp [line_count, ht]

/-- C5: the note filter retains exactly the notes whose category, after
trimming surrounding whitespace and lower-casing, is in the allowed set
and whose error flag does not equal 1; missing flag values are kept; a
note with category `" Physician "` and a non-error flag is normalized to
`"physician"` and retained (and one with a missing flag is retained),
while an error-flagged note and a disallowed category are dropped. -/
theorem C5_note_filter_exact :
    (∀ notes : List NoteRow,
      noteFilter notes = (notes.map normRow).filter
        (fun n => ALLOWED_CATEGORIES.contains n.category && !(n.iserror == some 1))) ∧
    normCat " Physician " = "physician" ∧
    noteFilter [exNoteBoundary, exNoteNoFlag, exNoteError, exNoteRadiology] =
      [normRow exNoteBoundary, normRow exNoteNoFlag] := by
  refine ⟨fun notes => ?_, rfl, rfl⟩
  simp only [noteFilter, List.filter_filter]
  exact List.filter_congr fun x _ => Bool.and_comm ..

/-- C9 witness: the zero-newline clause applied to the concrete text
`"abc"`. -/
theorem C9_example_text_metrics_witness : line_count "abc" = 1 :=
  C9_example_text_metrics.2.2.2.2.2 "abc" (by decide)

/-- C1: every row of the qualified-stay table produced by the cohort
filter has its first care unit in the allowed adult-ICU set, an
LOS_HOURS value of at least MIN_LOS_HOURS (24), and a corrected age of at
least 18. -/
theorem C1_qualified_stay_invariant (icustays : List StayRow) (patients : List PatientRow)
    (qs : List QStay) (h : cohortFilter icustays patients = .ok qs)
    (r : QStay) (hr : r ∈ qs) :
    ALLOWED_UNITS.contains r.first_careunit = true ∧
    (∃ q, r.los_hours = some q ∧ MIN_LOS_HOURS ≤ q) ∧
    (∃ a, r.age = some a ∧ (18 : Int) ≤ a) := by
  unfold cohortFilter at h
  cases hps : mapE parseStayRow icustays with
  | error e => rw [hps] at h; cases h
  | ok stays0 =>
    rw [hps] at h
    cases hpp : mapE parsePatientRow patients with
    | error e => rw [hpp] at h; cases h
    | ok pats =>
      rw [hpp] at h
      cases h
      simp only [List.mem_filter, List.mem_map] at hr
      rcases hr with ⟨⟨q6, ⟨d, ⟨hdm, _⟩, rfl⟩, rfl⟩, hage⟩
      rcases mergePatients_mem hdm with ⟨s, hs, hunit, hlos, _, _⟩
      simp only [List.mem_filter, List.mem_map] at hs
      rcases hs with ⟨⟨s0, ⟨_, hs0unit⟩, rfl⟩, hlosge⟩
      refine ⟨?_, ?_, ?_⟩
      · show ALLOWED_UNITS.contains d.first_careunit = true
        rw [hunit]
        exact hs0unit
      · show ∃ q, d.los_hours = some q ∧ MIN_LOS_HOURS ≤ q
        rw [hlos]
        revert hlosge
        unfold losGE
        cases (addLos s0).los_hours with
        | none => intro hf; cases hf
        | some q => intro hq; exact ⟨q, rfl, of_decide_eq_true hq⟩
      · cases hca : (capAgeRow (addAge d)).age with
        | none =>
          rw [hca] at hage
          simp [ageGE] at hage
        | some a =>
          rw [hca] at hage
          exact ⟨a, rfl, by simpa [ageGE] using hage⟩

/-- C1 witness: the invariant applied to the concrete qualified stay
produced by `cohortFilter [exStay] [exPatient]`. -/
theorem C1_qualified_stay_invariant_witness :
    ALLOWED_UNITS.contains exQStay.first_careunit = true ∧
    (∃ q, exQStay.los_hours = some q ∧ MIN_LOS_HOURS ≤ q) ∧
    (∃ a, exQStay.age = some a ∧ (18 : Int) ≤ a) :=
  C1_qualified_stay_invariant [exStay] [exPatient] [exQStay] rfl exQStay
    (List.mem_singleton.mpr rfl)

theorem parseTS_ok_of_cellOK {c : TSCell} (h : cellOK c = true) :
    ∃ t, parseTS c = .ok t := by
  cases c with
  | missing => exact ⟨none, rfl⟩
  | valid t => exact ⟨some t, rfl⟩
  | malformed => cases h

theorem parseChart_fields {m0 : Merged} {m : MergedP} (h : parseChart m0 = .ok m) :
    m.subject_id = m0.subject_id ∧ m.hadm_id = m0.hadm_id ∧ m.intime = m0.intime ∧
      parseTS m0.charttime = .ok m.charttime := by
  unfold parseChart at h
  cases hc : parseTS m0.charttime with
  | error e => rw [hc] at h; cases h
  | ok ct =>
    rw [hc] at h
    cases h
    refine ⟨rfl, rfl, rfl, ?_⟩
    rfl

theorem inWindow_bounds {m : MergedP} (h : inWindow m = true) :
    ∃ ct it, m.charttime = some ct ∧ m.intime = some it ∧
      it.sec ≤ ct.sec ∧ ct.sec ≤ it.sec + TIME_WINDOW_HOURS * 3600 := by
  unfold inWindow at h
  cases hc : m.charttime with
  | none => rw [hc] at h; cases h
  | some ct =>
    cases hi : m.intime with
    | none => rw [hc, hi] at h; cases h
    | some it =>
      rw [hc, hi] at h
      rcases Bool.and_eq_true .. |>.mp h with ⟨h1, h2⟩
      exact ⟨ct, it, rfl, rfl, of_decide_eq_true h1, of_decide_eq_true h2⟩

theorem corpus_mem_structure {notes : List NoteRow} {icustays : List StayRow}
    {patients : List PatientRow} {corpus : List CorpusRow}
    (h : buildCorpus notes icustays patients = .ok corpus)
    {r : CorpusRow} (hr : r ∈ corpus) :
    ∃ qs, cohortFilter icustays patients = .ok qs ∧
      ∃ m : MergedP, inWindow m = true ∧ r = project m ∧
        ∃ m0 ∈ mergeNotesStays (noteFilter notes) qs, parseChart m0 = .ok m := by
  unfold buildCorpus at h
  cases hq : cohortFilter icustays patients with
  | error e => rw [hq] at h; cases h
  | ok qs =>
    rw [hq] at h
    dsimp only at h
    cases hmp : mapE parseChart (mergeNotesStays (noteFilter notes) qs) with
    | error e => rw [hmp] at h; cases h
    | ok mergedP =>
      rw [hmp] at h
      dsimp only at h
      cases h
      simp only [dropnaStage, List.mem_map, List.mem_filter] at hr
      rcases hr with ⟨m, ⟨⟨hmem, _⟩, hwin⟩, rfl⟩
      exact ⟨qs, rfl, m, hwin, rfl, mapE_mem hmp hmem⟩

/-- C2: for every row of the final corpus, the chart time lies within
the closed interval from the joined stay in-time to in-time plus the
24-hour window, inclusive at both ends; concretely, a note charted
exactly at in-time plus 24 hours is retained and a note charted one
second later is excluded. -/
theorem C2_time_window :
    (∀ (notes : List NoteRow) (icustays : List StayRow) (patients : List PatientRow)
        (corpus : List CorpusRow), buildCorpus notes icustays patients = .ok corpus →
      ∀ r ∈ corpus, ∃ qs, cohortFilter icustays patients = .ok qs ∧
        ∃ s ∈ qs, s.subject_id = r.subject_id ∧ s.hadm_id = r.hadm_id ∧
          ∃ ct it, r.charttime = some ct ∧ s.intime = some it ∧
            it.sec ≤ ct.sec ∧ ct.sec ≤ it.sec + TIME_WINDOW_HOURS * 3600) ∧
    buildCorpus [exNoteBoundary, exNoteLate] [exStay] [exPatient] = .ok [exCorpusBoundary] := by
  refine ⟨?_, rfl⟩
  intro notes icustays patients corpus h r hr
  rcases corpus_mem_structure h hr with ⟨qs, hq, m, hwin, rfl, m0, hm0, hpc⟩
  rcases parseChart_fields hpc with ⟨hsub, hhadm, hint, _⟩
  rcases mergeNotesStays_mem hm0 with ⟨n, _, s, hsmem, hssub, hshadm, hmsub, hmhadm, _, hmint⟩
  rcases inWindow_bounds hwin with ⟨ct, it, hct, hit, hlo, hhi⟩
  refine ⟨qs, hq, s, hsmem, ?_, ?_, ct, it, hct, ?_, hlo, hhi⟩
  · show s.subject_id = m.subject_id
    rw [hsub, hssub, hmsub]
  · show s.hadm_id = m.hadm_id
    rw [hhadm, hshadm, hmhadm]
  · rw [← hit, hint, hmint]

/-- C2 witness: the window bounds applied to the concrete corpus row
produced from the boundary note. -/
theorem C2_time_window_witness :
    ∃ qs, cohortFilter [exStay] [exPatient] = .ok qs ∧
      ∃ s ∈ qs, s.subject_id = exCorpusBoundary.subject_id ∧
        s.hadm_id = exCorpusBoundary.hadm_id ∧
        ∃ ct it, exCorpusBoundary.charttime = some ct ∧ s.intime = some it ∧
          it.sec ≤ ct.sec ∧ ct.sec ≤ it.sec + TIME_WINDOW_HOURS * 3600 :=
  C2_time_window.1 [exNoteBoundary, exNoteLate] [exStay] [exPatient] [exCorpusBoundary] rfl
    exCorpusBoundary (List.mem_singleton.mpr rfl)

/-- C7: the corpus join never invents rows: every corpus row has its
(subject id, admission id) pair present in the filtered-note table and
in the qualified-stay table as they stood immediately before the join. -/
theorem C7_join_never_invents_rows :
    ∀ (notes : List NoteRow) (icustays : List StayRow) (patients : List PatientRow)
      (corpus : List CorpusRow), buildCorpus notes icustays patients = .ok corpus →
      ∀ r ∈ corpus, ∃ qs, cohortFilter icustays patients = .ok qs ∧
        (∃ n ∈ noteFilter notes, n.subject_id = r.subject_id ∧ n.hadm_id = r.hadm_id) ∧
        (∃ s ∈ qs, s.subject_id = r.subject_id ∧ s.hadm_id = r.hadm_id) := by
  intro notes icustays patients corpus h r hr
  rcases corpus_mem_structure h hr with ⟨qs, hq, m, _, rfl, m0, hm0, hpc⟩
  rcases parseChart_fields hpc with ⟨hsub, hhadm, _, _⟩
  rcases mergeNotesStays_mem hm0 with ⟨n, hnmem, s, hsmem, hssub, hshadm, hmsub, hmhadm, _, _⟩
  refine ⟨qs, hq, ⟨n, hnmem, ?_, ?_⟩, ⟨s, hsmem, ?_, ?_⟩⟩
  · show n.subject_id = m.subject_id
    rw [hsub, hmsub]
  · show n.hadm_id = m.hadm_id
    rw [hhadm, hmhadm]
  · show s.subject_id = m.subject_id
    rw [hsub, hssub, hmsub]
  · show s.hadm_id = m.hadm_id
    rw [hhadm, hshadm, hmhadm]

/-- C7 witness: the no-invented-rows property applied to the concrete
corpus row produced from the boundary note. -/
theorem C7_join_never_invents_rows_witness :
    ∃ qs, cohortFilter [exStay] [exPatient] = .ok qs ∧
      (∃ n ∈ noteFilter [exNoteBoundary, exNoteLate],
        n.subject_id = exCorpusBoundary.subject_id ∧
        n.hadm_id = exCorpusBoundary.hadm_id) ∧
      (∃ s ∈ qs, s.subject_id = exCorpusBoundary.subject_id ∧
        s.hadm_id = exCorpusBoundary.hadm_id) :=
  C7_join_never_invents_rows [exNoteBoundary, exNoteLate] [exStay] [exPatient]
    [exCorpusBoundary] rfl exCorpusBoundary (List.mem_singleton.mpr rfl)

/-- C3 counterexample: a note with a malformed (non-missing) CHARTTIME
that survives the category, error and join stages makes the whole run
abort with a raise from `pd.to_datetime`, instead of the affected row
being dropped: no corpus is produced at all. -/
theorem C3_counterexample_malformed_aborts :
    buildCorpus [exNoteMalformed] [exStay] [exPatient] = .error "TimestampParseError" ∧
    ¬ ∃ corpus, buildCorpus [exNoteMalformed] [exStay] [exPatient] = .ok corpus := by
  have h1 : buildCorpus [exNoteMalformed] [exStay] [exPatient] =
      .error "TimestampParseError" := rfl
  refine ⟨h1, ?_⟩
  rintro ⟨c, hc⟩
  exact Except.noConfusion (h1.symm.trans hc)

/-- C3 amended: a missing chart-time or in-time value never aborts the
run (all-parseable-or-missing inputs always produce a corpus, the
missing-timestamp rows being dropped), and the dropna step keeps exactly
the joined rows with both timestamps present, so only those rows
participate in the temporal-window comparison; a malformed non-missing
value, by contrast, aborts the run (see the counterexample). -/
theorem C3_amended_missing_dropped :
    (∀ (notes : List NoteRow) (icustays : List StayRow) (patients : List PatientRow),
      noMalformedInputs notes icustays patients = true →
      ∃ corpus, buildCorpus notes icustays patients = .ok corpus) ∧
    (∀ (l : List MergedP) (r : MergedP),
      r ∈ dropnaStage l ↔
        r ∈ l ∧ r.charttime.isSome = true ∧ r.intime.isSome = true) := by
  constructor
  · intro notes icustays patients hnm
    simp only [noMalformedInputs, Bool.and_eq_true, List.all_eq_true] at hnm
    rcases hnm with ⟨⟨hn, hs⟩, hp⟩
    have hstays : ∃ l, mapE parseStayRow icustays = .ok l := by
      apply mapE_ok_of_all
      intro s hsmem
      rcases hs s hsmem with ⟨h1, h2⟩
      rcases parseTS_ok_of_cellOK h1 with ⟨ti, hti⟩
      rcases parseTS_ok_of_cellOK h2 with ⟨to2, hto⟩
      exact ⟨_, by unfold parseStayRow; rw [hti, hto]⟩
    rcases hstays with ⟨stays0, hstays⟩
    have hpats : ∃ l, mapE parsePatientRow patients = .ok l := by
      apply mapE_ok_of_all
      intro p hpmem
      rcases parseTS_ok_of_cellOK (hp p hpmem) with ⟨d, hd⟩
      exact ⟨_, by unfold parsePatientRow; rw [hd]⟩
    rcases hpats with ⟨pats0, hpats⟩
    have hq : ∃ qs, cohortFilter icustays patients = .ok qs := by
      unfold cohortFilter
      rw [hstays, hpats]
      exact ⟨_, rfl⟩
    rcases hq with ⟨qs, hq⟩
    have hmp : ∃ l, mapE parseChart (mergeNotesStays (noteFilter notes) qs) = .ok l := by
      apply mapE_ok_of_all
      intro m0 hm0
      rcases mergeNotesStays_mem hm0 with ⟨n, hnmem, _, _, _, _, _, _, hct, _⟩
      rcases noteFilter_mem hnmem with ⟨n0, hn0, rfl⟩
      have hctOK : cellOK m0.charttime = true := by
        rw [hct]
        exact hn n0 hn0
      rcases parseTS_ok_of_cellOK hctOK with ⟨ct, hctp⟩
      exact ⟨_, by unfold parseChart; rw [hctp]⟩
    rcases hmp with ⟨mp, hmp⟩
    refine ⟨List.map project (List.filter inWindow (dropnaStage mp)), ?_⟩
    unfold buildCorpus
    rw [hq]
    dsimp only
    rw [hmp]
  · intro l r
    simp [dropnaStage, List.mem_filter, and_assoc]

/-- C3 amended witness: a note whose CHARTTIME is missing does not abort
the run; a corpus is still produced. -/
theorem C3_amended_missing_dropped_witness :
    ∃ corpus, buildCorpus [exNoteMissing] [exStay] [exPatient] = .ok corpus :=
  C3_amended_missing_dropped.1 [exNoteMissing] [exStay] [exPatient] (by decide)

/-!
Scanner lemmas for C8: the colon-header count and the de-identification
token count are monotone under appending text on the right.
-/

theorem countCH_zero_of_all :
    ∀ (l : List Char), (∀ x ∈ l, colonClass x = true) → ∀ ls skip, countCH l ls skip = 0 := by
  intro l
  induction l with
  | nil => intro _ ls skip; cases skip <;> rfl
  | cons c cs ih =>
    intro h ls skip
    have hcs : ∀ x ∈ cs, colonClass x = true := fun x hx => h x (List.mem_cons_of_mem _ hx)
    have hdrop : cs.dropWhile colonClass = [] := List.dropWhile_eq_nil_iff.mpr hcs
    cases skip with
    | succ n => simpa only [countCH] using ih hcs (c == '\n') n
    | zero =>
      simp only [countCH, hdrop]
      split <;> exact ih hcs (c == '\n') 0

theorem countCH_append_mono (l2 : List Char) :
    ∀ (l1 : List Char) (ls : Bool) (skip : Nat),
      countCH l1 ls skip ≤ countCH (l1 ++ l2) ls skip := by
  intro l1
  induction l1 with
  | nil => intro ls skip; exact Nat.zero_le _
  | cons c cs ih =>
    intro ls skip
    rw [List.cons_append]
    cases skip with
    | succ n =>
      show countCH cs (c == '\n') n ≤ countCH (cs ++ l2) (c == '\n') n
      exact ih _ n
    | zero =>
      simp only [countCH]
      by_cases hls : (ls && isUpperAZ c) = true
      · rw [if_pos hls, if_pos hls]
        cases hdrop : cs.dropWhile colonClass with
        | nil =>
          have hall : ∀ x ∈ cs, colonClass x = true := List.dropWhile_eq_nil_iff.mp hdrop
          exact le_trans (le_of_eq (countCH_zero_of_all cs hall (c == '\n') 0)) (Nat.zero_le _)
        | cons d rest =>
          have hne : ¬ (cs.dropWhile colonClass).isEmpty = true := by
            rw [hdrop]; simp
          have hdrop2 : (cs ++ l2).dropWhile colonClass = d :: (rest ++ l2) := by
            rw [List.dropWhile_append, if_neg hne, hdrop, List.cons_append]
          have hlen : (cs.takeWhile colonClass).length + (cs.dropWhile colonClass).length
              = cs.length := by
            rw [← List.length_append, List.takeWhile_append_dropWhile]
          rw [hdrop] at hlen
          have hnelen : ¬ (cs.takeWhile colonClass).length = cs.length := by
            simp only [List.length_cons] at hlen
            omega
          have htake2 : (cs ++ l2).takeWhile colonClass = cs.takeWhile colonClass := by
            rw [List.takeWhile_append, if_neg hnelen]
          rw [hdrop2, htake2]
          dsimp only
          by_cases hc2 : (d == ':' && decide (1 ≤ (cs.takeWhile colonClass).length)) = true
          · rw [if_pos hc2, if_pos hc2]
            exact Nat.add_le_add_left (ih _ _) 1
          · rw [if_neg hc2, if_neg hc2]
            exact ih _ 0
      · rw [if_neg hls, if_neg hls]
        exact ih _ 0

theorem findCloseLen_append :
    ∀ (k : Nat) (l : List Char), l.length ≤ k → ∀ (n : Nat), findCloseLen l = some n →
      ∀ l2, findCloseLen (l ++ l2) = some n := by
  intro k
  induction k with
  | zero =>
    intro l hl n h l2
    match l, hl with
    | [], _ => cases h
  | succ k ih =>
    intro l hl n h l2
    match l with
    | [] => cases h
    | [a] => cases h
    | [a, b] => cases h
    | a :: b :: c :: rest =>
      simp only [List.cons_append]
      simp only [findCloseLen] at h ⊢
      by_cases h1 : (a == '*' && b == '*' && c == ']') = true
      · rw [if_pos h1] at h ⊢; exact h
      · rw [if_neg h1] at h ⊢
        by_cases h2 : (a == '\n') = true
        · rw [if_pos h2] at h; cases h
        · rw [if_neg h2] at h ⊢
          cases hin : findCloseLen (b :: c :: rest) with
          | none => rw [hin] at h; cases h
          | some m =>
            rw [hin] at h
            have hr := ih (b :: c :: rest) (by simp only [List.length_cons] at hl ⊢; omega) m hin l2
            simp only [List.cons_append] at hr
            rw [hr]
            exact h

theorem findCloseLen_some_hasClose :
    ∀ (k : Nat) (l : List Char), l.length ≤ k → ∀ (n : Nat), findCloseLen l = some n →
      hasClose l = true := by
  intro k
  induction k with
  | zero =>
    intro l hl n h
    match l, hl with
    | [], _ => cases h
  | succ k ih =>
    intro l hl n h
    match l with
    | [] => cases h
    | [a] => cases h
    | [a, b] => cases h
    | a :: b :: c :: rest =>
      simp only [findCloseLen] at h
      show ((a == '*' && (b :: c :: rest).take 2 == ['*', ']']) ||
        hasClose (b :: c :: rest)) = true
      by_cases h1 : (a == '*' && b == '*' && c == ']') = true
      · rcases Bool.and_eq_true .. |>.mp h1 with ⟨h11, h13⟩
        rcases Bool.and_eq_true .. |>.mp h11 with ⟨ha, hb⟩
        simp only [beq_iff_eq] at ha hb h13
        subst ha; subst hb; subst h13
        simp
      · rw [if_neg h1] at h
        by_cases h2 : (a == '\n') = true
        · rw [if_pos h2] at h; cases h
        · rw [if_neg h2] at h
          cases hin : findCloseLen (b :: c :: rest) with
          | none => rw [hin] at h; cases h
          | some m =>
            rw [ih (b :: c :: rest) (by simp only [List.length_cons] at hl ⊢; omega) m hin,
              Bool.or_true]

theorem hasClose_append_right (l t : List Char) (h : hasClose t = true) :
    hasClose (l ++ t) = true := by
  induction l with
  | nil => simpa
  | cons a l2 ih =>
    rw [List.cons_append]
    simp only [hasClose]
    rw [ih]
    simp

theorem findCloseLen_none_append :
    ∀ (k : Nat) (l : List Char), l.length ≤ k → findCloseLen l = none →
      ∀ (l2 : List Char) (n : Nat), findCloseLen (l ++ l2) = some n → hasClose l = false := by
  intro k
  induction k with
  | zero =>
    intro l hl _ l2 n _
    match l, hl with
    | [], _ => rfl
  | succ k ih =>
    intro l hl h l2 n h2
    match l with
    | [] => rfl
    | [a] => simp [hasClose]
    | [a, b] => simp [hasClose]
    | a :: b :: c :: rest =>
      simp only [findCloseLen] at h
      simp only [List.cons_append, List.append_eq, findCloseLen] at h2
      by_cases h1 : (a == '*' && b == '*' && c == ']') = true
      · rw [if_pos h1] at h; cases h
      · rw [if_neg h1] at h h2
        by_cases hn : (a == '\n') = true
        · rw [if_pos hn] at h2; cases h2
        · rw [if_neg hn] at h h2
          cases hin : findCloseLen (b :: c :: rest) with
          | some m => rw [hin] at h; cases h
          | none =>
            cases hin2 : findCloseLen (b :: c :: (rest ++ l2)) with
            | none => rw [hin2] at h2; cases h2
            | some m =>
              have hrec : hasClose (b :: c :: rest) = false := by
                refine ih (b :: c :: rest) (by simp only [List.length_cons] at hl ⊢; omega)
                  hin l2 m ?_
                exact hin2
              show ((a == '*' && (b :: c :: rest).take 2 == ['*', ']']) ||
                hasClose (b :: c :: rest)) = false
              rw [hrec, Bool.or_false]
              by_cases hpat : (a == '*' && (b :: c :: rest).take 2 == ['*', ']']) = true
              · exfalso
                apply h1
                rcases Bool.and_eq_true .. |>.mp hpat with ⟨ha, htake⟩
                simp only [List.take_cons, List.take_zero, beq_iff_eq] at ha htake
                obtain ⟨hb, hc⟩ : b = '*' ∧ c = ']' := by
                  injection htake with hx hy
                  injection hy with hz _
                  exact ⟨hx, hz⟩
                subst ha; subst hb; subst hc
                rfl
              · exact Bool.eq_false_iff.mpr fun hh => hpat hh

theorem countDeid_zero_of_not_hasClose :
    ∀ (l : List Char), hasClose l = false → ∀ skip, countDeid l skip = 0 := by
  intro l
  induction l with
  | nil => intro _ skip; cases skip <;> rfl
  | cons a cs ih =>
    intro h skip
    have hparts := Bool.or_eq_false_iff .. |>.mp (by simpa only [hasClose] using h)
    cases skip with
    | succ n => simpa only [countDeid] using ih hparts.2 n
    | zero =>
      simp only [countDeid]
      by_cases hcond : (a == '[' && cs.take 2 == ['*', '*']) = true
      · rw [if_pos hcond]
        cases hf : findCloseLen (cs.drop 2) with
        | some n =>
          exfalso
          have h1 : hasClose (cs.drop 2) = true :=
            findCloseLen_some_hasClose (cs.drop 2).length (cs.drop 2) le_rfl n hf
          have h2 : hasClose (cs.take 2 ++ cs.drop 2) = true :=
            hasClose_append_right _ _ h1
          rw [List.take_append_drop] at h2
          rw [hparts.2] at h2
          cases h2
        | none => exact ih hparts.2 0
      · rw [if_neg hcond]
        exact ih hparts.2 0

theorem countDeid_append_mono (l2 : List Char) :
    ∀ (l1 : List Char) (skip : Nat), countDeid l1 skip ≤ countDeid (l1 ++ l2) skip := by
  intro l1
  induction l1 with
  | nil => intro skip; exact Nat.zero_le _
  | cons a cs ih =>
    intro skip
    rw [List.cons_append]
    cases skip with
    | succ n =>
      show countDeid cs n ≤ countDeid (cs ++ l2) n
      exact ih n
    | zero =>
      simp only [countDeid]
      by_cases hcond : (a == '[' && cs.take 2 == ['*', '*']) = true
      · have hlen : 2 ≤ cs.length := by
          rcases Bool.and_eq_true .. |>.mp hcond with ⟨_, htake⟩
          simp only [beq_iff_eq] at htake
          have := congrArg List.length htake
          simp only [List.length_take] at this
          simp at this
          omega
        have htake2 : (cs ++ l2).take 2 = cs.take 2 := List.take_append_of_le_length hlen
        have hdrop2 : (cs ++ l2).drop 2 = cs.drop 2 ++ l2 := List.drop_append_of_le_length hlen
        have hcond2 : (a == '[' && (cs ++ l2).take 2 == ['*', '*']) = true := by
          rw [htake2]; exact hcond
        rw [if_pos hcond, if_pos hcond2, hdrop2]
        cases hf : findCloseLen (cs.drop 2) with
        | some n =>
          rw [findCloseLen_append (cs.drop 2).length (cs.drop 2) le_rfl n hf l2]
          exact Nat.add_le_add_left (ih _) 1
        | none =>
          cases hf2 : findCloseLen (cs.drop 2 ++ l2) with
          | none => exact ih 0
          | some n =>
            have hnc : hasClose (cs.drop 2) = false :=
              findCloseLen_none_append (cs.drop 2).length (cs.drop 2) le_rfl hf l2 n hf2
            have htk : cs.take 2 = ['*', '*'] := by
              rcases Bool.and_eq_true .. |>.mp hcond with ⟨_, htake⟩
              simpa only [beq_iff_eq] using htake
            have hcs2 : cs = '*' :: '*' :: cs.drop 2 := by
              conv_lhs => rw [← List.take_append_drop 2 cs]
              rw [htk]
              rfl
            have hzero : countDeid cs 0 = 0 := by
              rw [hcs2]
              show countDeid (cs.drop 2) 0 = 0
              exact countDeid_zero_of_not_hasClose _ hnc 0
            rw [hzero]
            exact Nat.zero_le _
      · have hLHS : countDeid cs 0 ≤ countDeid (cs ++ l2) 0 := ih 0
        rw [if_neg hcond]
        by_cases hcond2 : (a == '[' && (cs ++ l2).take 2 == ['*', '*']) = true
        · -- the bracket opens only with stars supplied by l2, so cs is
          -- shorter than 2 and contributes no match at all
          have hlt : cs.length < 2 := by
            by_contra hge
            have hge2 : 2 ≤ cs.length := by omega
            rw [List.take_append_of_le_length hge2] at hcond2
            exact hcond (by exact hcond2)
          have hzero : countDeid cs 0 = 0 := by
            match cs, hlt with
            | [], _ => rfl
            | [x], _ =>
              show (if (x == '[' && List.take 2 [] == ['*', '*']) = true then _ else countDeid ([] : List Char) 0) = 0
              rw [if_neg (by simp)]
              rfl
          rw [hzero]
          exact Nat.zero_le _
        · rw [if_neg hcond2]
          exact hLHS

/-- C8: every structural metric count is a non-negative integer for
every input string, and the de-identification token count and the
colon-terminated header count are monotone non-decreasing under text
concatenation. -/
theorem C8_metric_counts_nonneg_monotone :
    (∀ t : String,
      0 ≤ (count_colon_headers t : Int) ∧ 0 ≤ (count_uppercase_blocks t : Int) ∧
      0 ≤ (count_numeric_tokens t : Int) ∧ 0 ≤ (count_bp_patterns t : Int) ∧
      0 ≤ (count_deid_tokens t : Int) ∧ 0 ≤ (char_length t : Int) ∧
      0 ≤ (token_count t : Int) ∧ 0 ≤ (line_count t : Int)) ∧
    (∀ t1 t2 : String, count_deid_tokens t1 ≤ count_deid_tokens (t1 ++ t2)) ∧
    (∀ t1 t2 : String, count_colon_headers t1 ≤ count_colon_headers (t1 ++ t2)) := by
  refine ⟨fun t => ⟨Int.natCast_nonneg _, Int.natCast_nonneg _, Int.natCast_nonneg _,
    Int.natCast_nonneg _, Int.natCast_nonneg _, Int.natCast_nonneg _, Int.natCast_nonneg _,
    Int.natCast_nonneg _⟩, fun t1 t2 => ?_, fun t1 t2 => ?_⟩
  · show countDeid t1.data 0 ≤ countDeid (t1 ++ t2).data 0
    have hd : (t1 ++ t2).data = t1.data ++ t2.data := rfl
    rw [hd]
    exact countDeid_append_mono t2.data t1.data 0
  · show countCH t1.data true 0 ≤ countCH (t1 ++ t2).data true 0
    have hd : (t1 ++ t2).data = t1.data ++ t2.data := rfl
    rw [hd]
    exact countCH_append_mono t2.data t1.data true 0

/-!
Lemmas for C4: relation between the fully-uppercase header detector and
the colon-terminated header detector.
-/

theorem countCH_skip_run :
    ∀ (w t : List Char) (f : Bool),
      countCH (w ++ ':' :: t) f (w.length + 1) = countCH t false 0 := by
  intro w
  induction w with
  | nil =>
    intro t f
    show countCH t (':' == '\n') 0 = countCH t false 0
    rfl
  | cons a w ih =>
    intro t f
    show countCH (w ++ ':' :: t) (a == '\n') (w.length + 1) = countCH t false 0
    exact ih t (a == '\n')

theorem countUB_skip_run :
    ∀ (w t : List Char) (f : Bool),
      countUB (w ++ ':' :: t) f (w.length + 1) = countUB t false 0 := by
  intro w
  induction w with
  | nil =>
    intro t f
    show countUB t (':' == '\n') 0 = countUB t false 0
    rfl
  | cons a w ih =>
    intro t f
    show countUB (w ++ ':' :: t) (a == '\n') (w.length + 1) = countUB t false 0
    exact ih t (a == '\n')

theorem noIndentAux_cons {c : Char} {cs : List Char} (h : noIndentAux (c :: cs) = true) :
    ((!(c == '\n')) || headNoWS cs) = true ∧ noIndentAux cs = true :=
  Bool.and_eq_true .. |>.mp h

theorem noIndentAux_append_right :
    ∀ (xs ys : List Char), noIndentAux (xs ++ ys) = true → noIndentAux ys = true := by
  intro xs
  induction xs with
  | nil => intro ys h; exact h
  | cons a xs ih =>
    intro ys h
    rw [List.cons_append] at h
    exact ih ys (noIndentAux_cons h).2

theorem countUB_span :
    ∀ (w t : List Char) (ls : Bool), (∀ x ∈ w, (x == ':') = false) →
      countUB (w ++ ':' :: t) ls 0 ≤ 1 + countUB t false 0 := by
  intro w
  induction w with
  | nil =>
    intro t ls _
    rw [List.nil_append]
    have hd : (':' :: t).dropWhile upperClass = ':' :: t :=
      List.dropWhile_cons_of_neg (by simp [upperClass, isUpperAZ, isPySpace])
    have ht : (':' :: t).takeWhile upperClass = [] :=
      List.takeWhile_cons_of_neg (by simp [upperClass, isUpperAZ, isPySpace])
    simp only [countUB, hd, ht]
    have hcond : ((':' == ':') && decide (3 ≤ ([] : List Char).length)) = false := by decide
    rw [hcond]
    have hf : (':' == '\n') = false := by decide
    split
    · rw [if_neg (by simp), hf]
      exact Nat.le_add_left _ 1
    · rw [hf]
      exact Nat.le_add_left _ 1
  | cons a w ih =>
    intro t ls hw
    have hane : (a == ':') = false := hw a (List.mem_cons_self ..)
    have hwrest : ∀ x ∈ w, (x == ':') = false :=
      fun x hx => hw x (List.mem_cons_of_mem _ hx)
    rw [List.cons_append]
    by_cases hls : ls = true
    swap
    · -- not a line start: the attempt is skipped
      have hlsf : ls = false := by revert hls; cases ls <;> simp
      subst hlsf
      show countUB (w ++ ':' :: t) (a == '\n') 0 ≤ 1 + countUB t false 0
      exact ih t (a == '\n') hwrest
    subst hls
    by_cases hua : upperClass a = true
    swap
    · -- head not in the class: the maximal run is empty, no match
      have hd : (a :: (w ++ ':' :: t)).dropWhile upperClass = a :: (w ++ ':' :: t) :=
        List.dropWhile_cons_of_neg (by simpa using hua)
      have ht : (a :: (w ++ ':' :: t)).takeWhile upperClass = [] :=
        List.takeWhile_cons_of_neg (by simpa using hua)
      simp only [countUB, hd, ht, if_true]
      have hcond : ((a == ':') && decide (3 ≤ ([] : List Char).length)) = false := by
        rw [hane]; rfl
      rw [hcond]
      simp only [Bool.false_eq_true, if_false]
      exact ih t (a == '\n') hwrest
    · by_cases hall : ∀ x ∈ w, upperClass x = true
      · -- the whole prefix is in the class: the run stops exactly at the
        -- sentinel colon, and a match lands right after it
        have hd : (a :: (w ++ ':' :: t)).dropWhile upperClass = ':' :: t := by
          rw [List.dropWhile_cons_of_pos hua, List.dropWhile_append_of_pos hall,
            List.dropWhile_cons_of_neg (by simp [upperClass, isUpperAZ, isPySpace])]
        have ht : (a :: (w ++ ':' :: t)).takeWhile upperClass = a :: w := by
          rw [List.takeWhile_cons_of_pos hua, List.takeWhile_append_of_pos hall,
            List.takeWhile_cons_of_neg (by simp [upperClass, isUpperAZ, isPySpace]),
            List.append_nil]
        simp only [countUB, hd, ht, if_true]
        by_cases hcond : ((':' == ':') && decide (3 ≤ (a :: w).length)) = true
        · rw [if_pos hcond]
          have hskip : countUB (w ++ ':' :: t) (a == '\n') (a :: w).length
              = countUB t false 0 := countUB_skip_run w t (a == '\n')
          rw [hskip]
        · rw [if_neg hcond]
          exact ih t (a == '\n') hwrest
      · -- some prefix character leaves the class before the colon: the
        -- run stops inside the prefix at a non-colon character, no match
        have hne : ¬ (w.dropWhile upperClass).isEmpty = true := by
          intro hh
          apply hall
          exact List.dropWhile_eq_nil_iff.mp (by simpa [List.isEmpty_iff] using hh)
        have hd : (a :: (w ++ ':' :: t)).dropWhile upperClass
            = w.dropWhile upperClass ++ ':' :: t := by
          rw [List.dropWhile_cons_of_pos hua, List.dropWhile_append, if_neg hne]
        cases hdw : w.dropWhile upperClass with
        | nil => exact absurd (by rw [hdw]; rfl) hne
        | cons d tail =>
          have hdmem : d ∈ w := (List.dropWhile_sublist ..).mem (by rw [hdw]; exact List.mem_cons_self ..)
          have hdne : (d == ':') = false := hwrest d hdmem
          rw [hdw] at hd
          rw [List.cons_append] at hd
          simp only [countUB, hd, if_true]
          have hcond : ((d == ':') && decide
              (3 ≤ ((a :: (w ++ ':' :: t)).takeWhile upperClass).length)) = false := by
            rw [hdne]; rfl
          rw [hcond]
          simp only [Bool.false_eq_true, if_false]
          exact ih t (a == '\n') hwrest

theorem colonClass_of_upperClass {x : Char} (h : upperClass x = true) :
    colonClass x = true := by
  simp only [upperClass, Bool.or_eq_true] at h
  simp only [colonClass, Bool.or_eq_true]
  rcases h with h | h
  · exact Or.inl (Or.inl h)
  · exact Or.inr h

theorem countUB_le_countCH :
    ∀ (k : Nat) (l : List Char), l.length ≤ k → ∀ (ls : Bool),
      noIndentAux l = true → (ls = true → headNoWS l = true) →
      countUB l ls 0 ≤ countCH l ls 0 := by
  intro k
  induction k with
  | zero =>
    intro l hl ls _ _
    match l, hl with
    | [], _ => exact Nat.le_refl 0
  | succ k ih =>
    intro l hl ls hni hhead
    match l with
    | [] => exact Nat.le_refl 0
    | c :: cs =>
      rcases noIndentAux_cons hni with ⟨h1, h2⟩
      have hlcs : cs.length ≤ k := by simp only [List.length_cons] at hl; omega
      have hflag : (c == '\n') = true → headNoWS cs = true := by
        intro hc
        rw [hc] at h1
        simpa using h1
      by_cases hls : ls = true
      swap
      · have hlsf : ls = false := by revert hls; cases ls <;> simp
        subst hlsf
        show countUB cs (c == '\n') 0 ≤ countCH cs (c == '\n') 0
        exact ih cs hlcs (c == '\n') h2 hflag
      subst hls
      have hcns : isPySpace c = false := by simpa [headNoWS] using hhead rfl
      cases hdu : (c :: cs).dropWhile upperClass with
      | nil =>
        have hallu : ∀ x ∈ c :: cs, upperClass x = true := List.dropWhile_eq_nil_iff.mp hdu
        have hallc : ∀ x ∈ cs, colonClass x = true := fun x hx =>
          colonClass_of_upperClass (hallu x (List.mem_cons_of_mem _ hx))
        have hdc : cs.dropWhile colonClass = [] := List.dropWhile_eq_nil_iff.mpr hallc
        have hL : countUB (c :: cs) true 0 = countUB cs (c == '\n') 0 := by
          simp only [countUB, hdu, if_true]
        have hR : countCH (c :: cs) true 0 = countCH cs (c == '\n') 0 := by
          simp only [countCH, hdc]
          split <;> rfl
        rw [hL, hR]
        exact ih cs hlcs _ h2 hflag
      | cons d tail =>
        by_cases hub : ((d == ':') && decide (3 ≤ ((c :: cs).takeWhile upperClass).length))
            = true
        · -- the uppercase detector matches here; so does the colon
          -- detector, with the same extent
          rcases Bool.and_eq_true .. |>.mp hub with ⟨hdc0, hrun⟩
          have hdcolon : d = ':' := by simpa using hdc0
          subst hdcolon
          have hrunlen : 3 ≤ ((c :: cs).takeWhile upperClass).length := of_decide_eq_true hrun
          have huc : upperClass c = true := by
            by_contra huc
            rw [List.takeWhile_cons_of_neg (by simpa using huc)] at hrunlen
            simp at hrunlen
          have hiu : isUpperAZ c = true := by
            have := huc
            simp only [upperClass, Bool.or_eq_true] at this
            rcases this with h | h
            · exact h
            · rw [h] at hcns; cases hcns
          have htcons : (c :: cs).takeWhile upperClass = c :: cs.takeWhile upperClass :=
            List.takeWhile_cons_of_pos huc
          have hdcons : (c :: cs).dropWhile upperClass = cs.dropWhile upperClass :=
            List.dropWhile_cons_of_pos huc
          rw [hdcons] at hdu
          set w := cs.takeWhile upperClass with hw
          have hcseq : cs = w ++ ':' :: tail := by
            conv_lhs => rw [← List.takeWhile_append_dropWhile upperClass cs]
            rw [hdu]
          have hwall : ∀ x ∈ w, upperClass x = true := fun x hx => List.mem_takeWhile_imp hx
          have hwallc : ∀ x ∈ w, colonClass x = true := fun x hx =>
            colonClass_of_upperClass (hwall x hx)
          have htc : cs.takeWhile colonClass = w := by
            conv_lhs => rw [hcseq]
            rw [List.takeWhile_append_of_pos hwallc,
              List.takeWhile_cons_of_neg (by decide), List.append_nil]
          have hdc2 : cs.dropWhile colonClass = ':' :: tail := by
            conv_lhs => rw [hcseq]
            rw [List.dropWhile_append_of_pos hwallc,
              List.dropWhile_cons_of_neg (by decide)]
          have hwlen : 2 ≤ w.length := by
            rw [htcons] at hrunlen
            simp only [List.length_cons] at hrunlen
            omega
          have hrun2 : decide (3 ≤ (c :: w).length) = true := by
            rw [← htcons]
            exact hrun
          have hL : countUB (c :: cs) true 0 = 1 + countUB tail false 0 := by
            simp only [countUB, hdcons, hdu, htcons, if_true]
            rw [if_pos (by rw [hrun2]; rfl)]
            conv_lhs => rw [hcseq]
            rw [show (c :: w).length = w.length + 1 from rfl,
              countUB_skip_run w tail (c == '\n')]
          have hR : countCH (c :: cs) true 0 = 1 + countCH tail false 0 := by
            simp only [countCH, hdc2, htc]
            rw [if_pos (by rw [hiu]; rfl)]
            rw [if_pos (by rw [decide_eq_true (by omega : 1 ≤ w.length)]; rfl)]
            conv_lhs => rw [hcseq]
            rw [countCH_skip_run w tail (c == '\n')]
          have hnit : noIndentAux tail = true := by
            have := noIndentAux_append_right w (':' :: tail) (by rw [← hcseq]; exact h2)
            exact (noIndentAux_cons this).2
          have hlt : tail.length ≤ k := by
            have : cs.length = w.length + 1 + tail.length := by
              rw [hcseq]
              simp [List.length_append]
              omega
            omega
          rw [hL, hR]
          exact Nat.add_le_add_left
            (ih tail hlt false hnit (fun h => absurd h Bool.false_ne_true)) 1
        · -- the uppercase detector does not match here
          have hL : countUB (c :: cs) true 0 = countUB cs (c == '\n') 0 := by
            simp only [countUB, hdu, if_true]
            rw [if_neg hub]
          cases hdc : cs.dropWhile colonClass with
          | nil =>
            have hR : countCH (c :: cs) true 0 = countCH cs (c == '\n') 0 := by
              simp only [countCH, hdc]
              split <;> rfl
            rw [hL, hR]
            exact ih cs hlcs _ h2 hflag
          | cons e tail2 =>
            by_cases hch : ((true && isUpperAZ c) = true) ∧
                ((e == ':') && decide (1 ≤ (cs.takeWhile colonClass).length)) = true
            · -- the colon detector matches; the uppercase scan walks
              -- through its span and finds at most one match there
              rcases hch with ⟨hchc, hche⟩
              rcases Bool.and_eq_true .. |>.mp hche with ⟨he, _⟩
              have hecolon : e = ':' := by simpa using he
              subst hecolon
              set w2 := cs.takeWhile colonClass with hw2
              have hcseq : cs = w2 ++ ':' :: tail2 := by
                conv_lhs => rw [← List.takeWhile_append_dropWhile colonClass cs]
                rw [hdc]
              have hwne : ∀ x ∈ w2, (x == ':') = false := by
                intro x hx
                have hcc : colonClass x = true := List.mem_takeWhile_imp hx
                cases hxe : (x == ':') with
                | false => rfl
                | true =>
                  exfalso
                  have hxx : x = ':' := by simpa using hxe
                  subst hxx
                  exact absurd hcc (by decide)
              have hR : countCH (c :: cs) true 0 = 1 + countCH tail2 false 0 := by
                simp only [countCH, hdc, ← hw2]
                rw [if_pos hchc, if_pos hche]
                conv_lhs => rw [hcseq]
                rw [countCH_skip_run w2 tail2 (c == '\n')]
              have hspan : countUB cs (c == '\n') 0 ≤ 1 + countUB tail2 false 0 := by
                conv_lhs => rw [hcseq]
                exact countUB_span w2 tail2 (c == '\n') hwne
              have hnit2 : noIndentAux tail2 = true := by
                have := noIndentAux_append_right w2 (':' :: tail2) (by rw [← hcseq]; exact h2)
                exact (noIndentAux_cons this).2
              have hlt2 : tail2.length ≤ k := by
                have : cs.length = w2.length + 1 + tail2.length := by
                  rw [hcseq]
                  simp [List.length_append]
                  omega
                omega
              have hIH : countUB tail2 false 0 ≤ countCH tail2 false 0 :=
                ih tail2 hlt2 false hnit2 (fun h => absurd h Bool.false_ne_true)
              rw [hL, hR]
              omega
            · -- neither detector matches; both scanners step one character
              have hR : countCH (c :: cs) true 0 = countCH cs (c == '\n') 0 := by
                simp only [countCH, hdc]
                by_cases hc1 : (true && isUpperAZ c) = true
                · rw [if_pos hc1]
                  rw [if_neg (fun hin => hch ⟨hc1, hin⟩)]
                · rw [if_neg hc1]
              rw [hL, hR]
              exact ih cs hlcs _ h2 hflag

/-- C4 counterexample: the fully-uppercase header pattern `^[A-Z\s]{3,}:`
admits leading whitespace, which the colon-header pattern
`^[A-Z][A-Za-z\s]+:` rejects; on the text `" ABC:"` the uppercase
detector counts 1 while the colon detector counts 0, so the uppercase
count is not bounded by the colon count. -/
theorem C4_counterexample_not_subset :
    ¬ ∀ t : String, count_uppercase_blocks t ≤ count_colon_headers t := by
  intro h
  have hx := h " ABC:"
  revert hx
  decide

/-- C4 amended: for texts in which no line begins with a whitespace
character, every fully-uppercase header match begins with an uppercase
letter and is also a colon-header match of the same extent, so
`count_uppercase_blocks` is bounded by `count_colon_headers`. -/
theorem C4_uppercase_subset_colon_headers (t : String) (h : noIndentedLine t = true) :
    count_uppercase_blocks t ≤ count_colon_headers t := by
  have h2 : (headNoWS t.data && noIndentAux t.data) = true := h
  rcases Bool.and_eq_true .. |>.mp h2 with ⟨hh, hn⟩
  exact countUB_le_countCH t.data.length t.data le_rfl true hn (fun _ => hh)

/-- C4 amended witness: the bound applied to a concrete text with an
uppercase header, a mixed-case header and no indented line. -/
theorem C4_uppercase_subset_colon_headers_witness :
    noIndentedLine "NEURO:\nA b:\nx" = true ∧
    count_uppercase_blocks "NEURO:\nA b:\nx" ≤ count_colon_headers "NEURO:\nA b:\nx" :=
  ⟨by decide, C4_uppercase_subset_colon_headers "NEURO:\nA b:\nx" (by decide)⟩
